import Mathlib

/-
Verification development for `build_cover.py` (BedtimeStory_Coverbuilder).

Shallow embedding conventions:
- Python strings are modeled as `List Char` (except where only equality of
  names matters, where `String` is used directly).
- External collaborators (cairosvg, inkscape, rsvg-convert, ffmpeg, the
  filesystem, PIL) are modeled as oracles / explicit state recording exactly
  the observable behaviour the script depends on.
- Fallible Python code (exceptions) is modeled with `Option` / `Except` or
  explicit outcome types.
-/

set_option autoImplicit false
set_option linter.unusedVariables false
set_option linter.unnecessarySimpa false

/- ------------------------------------------------------------------ -/
/- Section 1: raster renderer fallback chain (`svg_to_png`, lines 161-209) -/
/- ------------------------------------------------------------------ -/

/-- Environment for one call of `svg_to_png`: which backends are installed
and whether each invocation would succeed.  `cairosvgOk` covers both the
`import cairosvg` and the `cairosvg.svg2png` call (any exception there is
caught by the bare `except Exception`).  The two inkscape flags model the
exit status of the modern (`--export-type`) and legacy (`--export-png`)
invocations; `inkscapeFound` / `rsvgFound` model `shutil.which`. -/
structure RenderEnv where
  cairosvgOk : Bool
  inkscapeFound : Bool
  inkscapeModernOk : Bool
  inkscapeLegacyOk : Bool
  rsvgFound : Bool
  rsvgOk : Bool

/-- The backend that produced the PNG. -/
inductive Backend where
  | cairosvg
  | inkscapeModern
  | inkscapeLegacy
  | rsvgConvert
deriving DecidableEq

/-- How a failed call of `svg_to_png` terminates: an uncaught
`subprocess.CalledProcessError`, or the explicit
`RuntimeError("No renderer available. ...")`. -/
inductive RenderError where
  | calledProcessError
  | noRendererAvailable
deriving DecidableEq

/-- Result of `svg_to_png`. -/
inductive RenderResult where
  | success (b : Backend)
  | failure (e : RenderError)
deriving DecidableEq

/-- `svg_to_png` (lines 161-209).  Control flow of the source:
cairosvg is tried first and any exception is caught; if inkscape is found,
the modern invocation is tried and only a `CalledProcessError` from it is
caught, in which case the legacy invocation runs *unprotected* (its failure
propagates; rsvg-convert is not consulted).  `rsvg-convert` runs (also
unprotected) only when inkscape was not found.  The `RuntimeError` is raised
only when neither CLI tool is found. -/
def svg_to_png (env : RenderEnv) : RenderResult :=
  if env.cairosvgOk then .success .cairosvg
  else if env.inkscapeFound then
    if env.inkscapeModernOk then .success .inkscapeModern
    else if env.inkscapeLegacyOk then .success .inkscapeLegacy
    else .failure .calledProcessError
  else if env.rsvgFound then
    if env.rsvgOk then .success .rsvgConvert
    else .failure .calledProcessError
  else .failure .noRendererAvailable

/- ------------------------------------------------------------------ -/
/- Section 2: palette loading (`load_palette`, lines 98-111, file branch) -/
/- ------------------------------------------------------------------ -/

/-- The six required palette keys, in the order the source checks them.
(The spec names them background-start, background-end, title-color,
subtitle-color, badge-background, badge-text-color.) -/
def REQUIRED_KEYS : List String :=
  ["BG1", "BG2", "TITLE_COLOR", "SUBTITLE_COLOR", "BADGE_BG", "BADGE_COLOR"]

/-- The palette-file branch of `load_palette` (lines 104-110): the parsed
JSON object is modeled as an association list; the `for k in (...)` loop
raises `ValueError` at the first key not present in the dict, otherwise the
dict is returned unchanged.  Values are never inspected. -/
def load_palette_file (d : List (String × String)) :
    Except String (List (String × String)) :=
  match REQUIRED_KEYS.find? (fun k => (d.lookup k).isNone) with
  | some k => .error ("Palette JSON missing key: " ++ k)
  | none => .ok d

/- ------------------------------------------------------------------ -/
/- Section 3: layout math (`main`, lines 308-314)                      -/
/- ------------------------------------------------------------------ -/

/-- The derived layout numbers computed in `main` from the two wrapped
line counts. -/
structure Layout where
  titleSize : Nat
  subSize : Nat
  textBaseY : Nat
  titleLineDY : Nat
  subLineDY : Nat
  subtitleOffsetY : Nat
deriving DecidableEq

/-- Lines 309-314 of `main`, extracted as a function of the two line
counts (these six assignments read nothing else):
`TITLE_SIZE = 140 if len(title_lines) == 1 else 120`,
`SUB_SIZE = 80`,
`TEXT_BASE_Y = 2150 - (0 if len(title_lines) == 1 else 40)`,
`TITLE_LINE_DY = 150`, `SUB_LINE_DY = 100`,
`SUBTITLE_OFFSET_Y = 160 + TITLE_LINE_DY * (len(title_lines)-1 if len(title_lines)>0 else 0)`. -/
def computeLayout (titleCount subtitleCount : Nat) : Layout :=
  { titleSize := if titleCount = 1 then 140 else 120
    subSize := 80
    textBaseY := 2150 - (if titleCount = 1 then 0 else 40)
    titleLineDY := 150
    subLineDY := 100
    subtitleOffsetY :=
      160 + 150 * (if 0 < titleCount then titleCount - 1 else 0) }

/- ------------------------------------------------------------------ -/
/- Section 4: image normalization (`upscale_to_3000`, lines 128-139)   -/
/- ------------------------------------------------------------------ -/

/-- Operations applied to a PIL image.  `unsharpMask` stores the source's
radius 0.6 in tenths so that everything stays in `Nat`. -/
inductive ImgOp where
  | convert (mode : String)
  | resize (w h : Nat) (filt : String)
  | unsharpMask (radiusTenths percent threshold : Nat)
deriving DecidableEq

/-- A PIL image: its size and mode, plus the log of operations applied to
it (newest last), which lets theorems observe the order of processing. -/
structure PILImage where
  width : Nat
  height : Nat
  mode : String
  ops : List ImgOp
deriving DecidableEq

/-- `im.convert(mode)`: changes the color mode, keeps the size. -/
def convertImg (m : String) (im : PILImage) : PILImage :=
  { im with mode := m, ops := im.ops ++ [ImgOp.convert m] }

/-- `im.resize((w, h), resample=...)`. -/
def resizeImg (w h : Nat) (filt : String) (im : PILImage) : PILImage :=
  { width := w, height := h, mode := im.mode,
    ops := im.ops ++ [ImgOp.resize w h filt] }

/-- `im.filter(ImageFilter.UnsharpMask(...))`: size and mode preserved. -/
def unsharpImg (r p t : Nat) (im : PILImage) : PILImage :=
  { im with ops := im.ops ++ [ImgOp.unsharpMask r p t] }

/-- Result of `upscale_to_3000`: either the original source path is
returned (the file on disk is untouched, so the artifact is byte-for-byte
the same), or a fresh temp PNG holding the given image is produced. -/
inductive UpscaleResult where
  | originalPath
  | tempPng (im : PILImage)
deriving DecidableEq

/-- `upscale_to_3000` (lines 128-139): open, convert to RGBA, read the
size; if it is already (3000, 3000) return the *source path*; otherwise
resize to 3000x3000 with LANCZOS, apply UnsharpMask(radius=0.6, percent=60,
threshold=2), and save to a temp PNG. -/
def upscale_to_3000 (srcImg : PILImage) : UpscaleResult :=
  let im := convertImg "RGBA" srcImg
  if im.width = 3000 ∧ im.height = 3000 then
    .originalPath
  else
    .tempPng (unsharpImg 6 60 2 (resizeImg 3000 3000 "LANCZOS" im))

/- ------------------------------------------------------------------ -/
/- Claim C1 (corrected)                                                -/
/- ------------------------------------------------------------------ -/

/-- Counterexample for claim C1.  Concrete environment: cairosvg fails,
inkscape is installed but both its invocation forms fail, rsvg-convert is
installed and would succeed.  The claim states that every next tier is
attempted whenever the previous one fails, so rendering should succeed via
rsvg-convert, and that only total failure yields the
NoRendererAvailableError; instead the code lets the legacy inkscape
invocation's CalledProcessError propagate and never runs rsvg-convert. -/
theorem svg_to_png_claim_cex :
    svg_to_png ⟨false, true, false, false, true, true⟩ =
      RenderResult.failure RenderError.calledProcessError ∧
    svg_to_png ⟨false, true, false, false, true, true⟩ ≠
      RenderResult.success Backend.rsvgConvert ∧
    svg_to_png ⟨false, true, false, false, true, true⟩ ≠
      RenderResult.failure RenderError.noRendererAvailable := by
  decide

/-- Claim C1, amended: the raster renderer tries cairosvg, then (if
inkscape is installed) the modern inkscape form, then the legacy inkscape
form; rsvg-convert is attempted only when inkscape is not installed.  A
failure of the legacy inkscape form or of rsvg-convert propagates as that
invocation's own process error without attempting further tiers, and the
NoRendererAvailableError is raised exactly when cairosvg failed and neither
CLI renderer is installed.  Stated as a complete characterization of
`svg_to_png`. -/
theorem svg_to_png_fallback_characterization (env : RenderEnv) :
    (svg_to_png env = .success .cairosvg ↔ env.cairosvgOk = true) ∧
    (svg_to_png env = .success .inkscapeModern ↔
      env.cairosvgOk = false ∧ env.inkscapeFound = true ∧
        env.inkscapeModernOk = true) ∧
    (svg_to_png env = .success .inkscapeLegacy ↔
      env.cairosvgOk = false ∧ env.inkscapeFound = true ∧
        env.inkscapeModernOk = false ∧ env.inkscapeLegacyOk = true) ∧
    (svg_to_png env = .success .rsvgConvert ↔
      env.cairosvgOk = false ∧ env.inkscapeFound = false ∧
        env.rsvgFound = true ∧ env.rsvgOk = true) ∧
    (svg_to_png env = .failure .calledProcessError ↔
      env.cairosvgOk = false ∧
        ((env.inkscapeFound = true ∧ env.inkscapeModernOk = false ∧
            env.inkscapeLegacyOk = false) ∨
          (env.inkscapeFound = false ∧ env.rsvgFound = true ∧
            env.rsvgOk = false))) ∧
    (svg_to_png env = .failure .noRendererAvailable ↔
      env.cairosvgOk = false ∧ env.inkscapeFound = false ∧
        env.rsvgFound = false) := by
  obtain ⟨a, b, c, d, e, f⟩ := env
  revert a b c d e f
  decide

/- ------------------------------------------------------------------ -/
/- Claim C4 (corrected)                                                -/
/- ------------------------------------------------------------------ -/

/-- Counterexample for claim C4.  A palette document that has all six
required keys but an *empty* value for BG1 is accepted without any
validation error, contradicting the claim that empty values fail
validation. -/
theorem load_palette_empty_value_cex :
    load_palette_file
        [("BG1", ""), ("BG2", "#0c1326"), ("TITLE_COLOR", "#F5F1E8"),
         ("SUBTITLE_COLOR", "#E7DFCF"), ("BADGE_BG", "#2A3358"),
         ("BADGE_COLOR", "#F5F1E8")] =
      .ok
        [("BG1", ""), ("BG2", "#0c1326"), ("TITLE_COLOR", "#F5F1E8"),
         ("SUBTITLE_COLOR", "#E7DFCF"), ("BADGE_BG", "#2A3358"),
         ("BADGE_COLOR", "#F5F1E8")] := by
  rfl

/-- Claim C4, amended: palette loading from a palette file validates that
all six named color roles are *present*; a palette missing any role fails
with a validation error rather than being default-filled, and on success
the document is returned unchanged.  Values are not inspected, so empty
values are accepted. -/
theorem load_palette_file_presence_only (d : List (String × String)) :
    (load_palette_file d = .ok d ↔
      ∀ k ∈ REQUIRED_KEYS, (d.lookup k).isSome = true) ∧
    ((∃ k ∈ REQUIRED_KEYS, d.lookup k = none) →
      ∃ k ∈ REQUIRED_KEYS, d.lookup k = none ∧
        load_palette_file d = .error ("Palette JSON missing key: " ++ k)) := by
  constructor
  · constructor
    · intro h k hk
      unfold load_palette_file at h
      cases hfind : REQUIRED_KEYS.find? (fun k => (d.lookup k).isNone) with
      | some k0 => rw [hfind] at h; exact absurd h (by simp)
      | none =>
          have := List.find?_eq_none.mp hfind k hk
          simpa [Option.isNone_iff_eq_none, Option.isSome_iff_ne_none]
            using this
    · intro h
      unfold load_palette_file
      cases hfind : REQUIRED_KEYS.find? (fun k => (d.lookup k).isNone) with
      | some k0 =>
          have hmem := List.mem_of_find?_eq_some hfind
          have hval := List.find?_some hfind
          have := h k0 hmem
          rw [Option.isNone_iff_eq_none] at hval
          rw [hval] at this
          exact absurd this (by simp)
      | none => rfl
  · rintro ⟨k, hk, hnone⟩
    unfold load_palette_file
    cases hfind : REQUIRED_KEYS.find? (fun k => (d.lookup k).isNone) with
    | some k0 =>
        refine ⟨k0, List.mem_of_find?_eq_some hfind, ?_, rfl⟩
        have hval := List.find?_some hfind
        rwa [Option.isNone_iff_eq_none] at hval
    | none =>
        have := List.find?_eq_none.mp hfind k hk
        rw [hnone] at this
        simp at this

/-- Witness for `load_palette_file_presence_only`: a complete palette is
accepted, and removing a key produces the validation error. -/
theorem load_palette_file_presence_only_witness :
    load_palette_file
        [("BG1", "#1d2540"), ("BG2", "#0c1326"), ("TITLE_COLOR", "#F5F1E8"),
         ("SUBTITLE_COLOR", "#E7DFCF"), ("BADGE_BG", "#2A3358"),
         ("BADGE_COLOR", "#F5F1E8")] =
      .ok
        [("BG1", "#1d2540"), ("BG2", "#0c1326"), ("TITLE_COLOR", "#F5F1E8"),
         ("SUBTITLE_COLOR", "#E7DFCF"), ("BADGE_BG", "#2A3358"),
         ("BADGE_COLOR", "#F5F1E8")] ∧
    (∃ k ∈ REQUIRED_KEYS, [("BG1", "#1d2540")].lookup k = none ∧
      load_palette_file [("BG1", "#1d2540")] =
        .error ("Palette JSON missing key: " ++ k)) :=
  ⟨(load_palette_file_presence_only _).1.mpr (by decide),
   (load_palette_file_presence_only [("BG1", "#1d2540")]).2
     ⟨"BG2", by decide, by decide⟩⟩

/- ------------------------------------------------------------------ -/
/- Claim C8 (confirmed)                                                -/
/- ------------------------------------------------------------------ -/

/-- Claim C8: the layout computation is a pure function of the title and
subtitle line counts; font sizes come from the fixed set {140, 120} (title)
and {80} (subtitle), with 140 exactly for a single-line title; per-line
increments are the constants 150 and 100; the subtitle offset is linear in
the title line count with fixed increment 150; the base Y takes the two
values 2150 / 2110; and going from a 1-line to a 2-line title both shrinks
the title font size and moves the text-block origin upward (smaller Y). -/
theorem computeLayout_table (t s : Nat) :
    ((computeLayout t s).titleSize = 140 ∨ (computeLayout t s).titleSize = 120) ∧
    ((computeLayout t s).titleSize = 140 ↔ t = 1) ∧
    (computeLayout t s).subSize = 80 ∧
    (computeLayout t s).titleLineDY = 150 ∧
    (computeLayout t s).subLineDY = 100 ∧
    (∀ n : Nat, (computeLayout (n + 1) s).subtitleOffsetY = 160 + 150 * n) ∧
    (∀ n : Nat,
      (computeLayout (n + 2) s).subtitleOffsetY =
        (computeLayout (n + 1) s).subtitleOffsetY + 150) ∧
    (computeLayout 1 s).textBaseY = 2150 ∧
    (computeLayout 2 s).textBaseY = 2110 ∧
    (computeLayout 2 s).titleSize < (computeLayout 1 s).titleSize ∧
    (computeLayout 2 s).textBaseY < (computeLayout 1 s).textBaseY ∧
    (∀ s' : Nat, computeLayout t s = computeLayout t s') := by
  refine ⟨?_, ?_, rfl, rfl, rfl, ?_, ?_, rfl, rfl,
    by norm_num [computeLayout], by norm_num [computeLayout], ?_⟩
  · by_cases h : t = 1 <;> simp [computeLayout, h]
  · by_cases h : t = 1 <;> simp [computeLayout, h]
  · intro n
    simp [computeLayout]
  · intro n
    simp [computeLayout, Nat.mul_add, Nat.add_assoc]
  · intro s'
    rfl

/- ------------------------------------------------------------------ -/
/- Claim C5 (confirmed)                                                -/
/- ------------------------------------------------------------------ -/

/-- Claim C5: for every source image whose dimensions already equal the
3000x3000 canvas, `upscale_to_3000` returns the original path, i.e. the
identical artifact on disk, untouched — no recompression, byte-for-byte
the same file. -/
theorem upscale_to_3000_identity (img : PILImage)
    (hw : img.width = 3000) (hh : img.height = 3000) :
    upscale_to_3000 img = .originalPath := by
  simp [upscale_to_3000, convertImg, hw, hh]

/-- Witness for `upscale_to_3000_identity` at a concrete 3000x3000 image. -/
theorem upscale_to_3000_identity_witness :
    upscale_to_3000 ⟨3000, 3000, "RGB", []⟩ = .originalPath :=
  upscale_to_3000_identity ⟨3000, 3000, "RGB", []⟩ rfl rfl

/- ------------------------------------------------------------------ -/
/- Claim C6 (confirmed)                                                -/
/- ------------------------------------------------------------------ -/

/-- Claim C6: for every source image whose dimensions differ from the
canvas, the normalizer first converts to RGBA (a mode with an alpha
channel), then resamples with LANCZOS to exactly 3000x3000, then applies
the mild UnsharpMask pass — in that order — and the produced temp image has
exactly canvas dimensions. -/
theorem upscale_to_3000_resizes (img : PILImage)
    (h : ¬(img.width = 3000 ∧ img.height = 3000)) :
    ∃ out : PILImage,
      upscale_to_3000 img = .tempPng out ∧
      out.width = 3000 ∧ out.height = 3000 ∧ out.mode = "RGBA" ∧
      out.ops = img.ops ++
        [ImgOp.convert "RGBA", ImgOp.resize 3000 3000 "LANCZOS",
         ImgOp.unsharpMask 6 60 2] := by
  have heq : upscale_to_3000 img =
      .tempPng (unsharpImg 6 60 2
        (resizeImg 3000 3000 "LANCZOS" (convertImg "RGBA" img))) := by
    simp only [upscale_to_3000]
    rw [if_neg]
    simpa [convertImg] using h
  exact ⟨_, heq, rfl, rfl, rfl, by simp [unsharpImg, resizeImg, convertImg]⟩

/-- Witness for `upscale_to_3000_resizes` at a concrete 1024x768 image. -/
theorem upscale_to_3000_resizes_witness :
    ∃ out : PILImage,
      upscale_to_3000 ⟨1024, 768, "P", []⟩ = .tempPng out ∧
      out.width = 3000 ∧ out.height = 3000 ∧ out.mode = "RGBA" ∧
      out.ops = ([] : List ImgOp) ++
        [ImgOp.convert "RGBA", ImgOp.resize 3000 3000 "LANCZOS",
         ImgOp.unsharpMask 6 60 2] :=
  upscale_to_3000_resizes ⟨1024, 768, "P", []⟩ (by decide)

/- ------------------------------------------------------------------ -/
/- Section 5: source-art deletion (`_is_within` lines 216-220,         -/
/-            `delete_source_art` lines 222-230)                       -/
/- ------------------------------------------------------------------ -/

/-- Filesystem oracle for `delete_source_art`.  `resolve` models
`Path.resolve()` (`none` when it raises, which `_is_within` catches);
`isFile` models `Path.is_file()`; `unlinkFails` says whether
`Path.unlink()` would raise for this path. -/
structure FsEnv where
  resolve : List Char → Option (List Char)
  isFile : List Char → Bool
  unlinkFails : List Char → Bool

/-- `_is_within(child, parent)` (lines 216-220):
`str(child.resolve()).startswith(str(parent.resolve()) + os.sep)` with any
exception caught and turned into `False`.  `os.sep` is `/`. -/
def is_within (env : FsEnv) (child parent : List Char) : Bool :=
  match env.resolve child, env.resolve parent with
  | some c, some p => (p ++ ['/']).isPrefixOf c
  | _, _ => false

/-- Outcome of `delete_source_art`: the file was unlinked, the deletion was
skipped (path not a file or not inside base), or the unlink raised and the
error was only printed.  The function never propagates an exception, which
the total return type records. -/
inductive DeleteOutcome where
  | deleted
  | skipped
  | errorLogged
deriving DecidableEq

/-- `delete_source_art(art_src, base)` (lines 222-230): unlink only when
`art_src.is_file()` and `_is_within(art_src, base)`; otherwise print a
skip message; any exception from the unlink is caught and printed. -/
def delete_source_art (env : FsEnv) (artSrc base : List Char) :
    DeleteOutcome :=
  if env.isFile artSrc && is_within env artSrc base then
    if env.unlinkFails artSrc then .errorLogged else .deleted
  else .skipped

/- ------------------------------------------------------------------ -/
/- Section 6: MP3 cover embedding (`embed_cover_in_mp3s`, lines 246-273) -/
/- ------------------------------------------------------------------ -/

/-- Contents of files in the story folder.  `tagged orig cov` is the file
ffmpeg produces from original audio `orig` and cover image `cov`;
`incomplete` is a partial output left behind by a failed ffmpeg run;
`absent` stands for reading a path with no file (never stored). -/
inductive Content where
  | raw (s : String)
  | incomplete
  | absent
  | tagged (orig : Content) (cov : Content)
deriving DecidableEq

/-- The story folder as an association list from file name to content. -/
abbrev FS := List (String × Content)

def fsGet (fs : FS) (p : String) : Option Content :=
  (fs.find? (fun e => e.1 == p)).map (fun e => e.2)

def fsErase (fs : FS) (p : String) : FS :=
  fs.filter (fun e => !(e.1 == p))

def fsSet (fs : FS) (p : String) (v : Content) : FS :=
  (p, v) :: fsErase fs p

/-- Oracle for one run of `embed_cover_in_mp3s`: is ffmpeg installed, does
the ffmpeg invocation for a given track exit successfully, and does a
failed invocation leave a partial temp file behind. -/
structure TagEnv where
  ffmpegFound : Bool
  ok : String → Bool
  leftTmpOutput : String → Bool

/-- `f.with_name(f"_tmp_{f.name}")` for files in one folder. -/
def tmpName (f : String) : String := "_tmp_" ++ f

/-- One iteration of the tagging loop (lines 255-273) for track `f`:
on success ffmpeg writes the tagged file to the temp name and
`tmp.replace(f)` renames it over the original; on failure the temp file is
unlinked if it exists and the loop continues (the `Bool` is the per-track
success that the source reports by printing). -/
def tagOne (env : TagEnv) (cover : String) (fs : FS) (f : String) :
    FS × Bool :=
  if env.ok f then
    let newC := Content.tagged ((fsGet fs f).getD .absent)
      ((fsGet fs cover).getD .absent)
    let fs1 := fsSet fs (tmpName f) newC
    let fs2 := fsSet (fsErase fs1 (tmpName f)) f newC
    (fs2, true)
  else
    let fs1 := if env.leftTmpOutput f then
        fsSet fs (tmpName f) Content.incomplete
      else fs
    let fs2 := if (fsGet fs1 (tmpName f)).isSome then
        fsErase fs1 (tmpName f)
      else fs1
    (fs2, false)

/-- The `for f in mp3s` loop of `embed_cover_in_mp3s`, collecting the
per-track success report. -/
def embedGo (env : TagEnv) (cover : String) :
    FS → List String → FS × List (String × Bool)
  | fs, [] => (fs, [])
  | fs, f :: rest =>
    let r := tagOne env cover fs f
    let q := embedGo env cover r.1 rest
    (q.1, (f, r.2) :: q.2)

/-- `embed_cover_in_mp3s(folder, cover_path)` (lines 246-273), with the
sorted `*.mp3` glob of the folder passed in as `tracks`.  When ffmpeg is
not found the function only prints and returns. -/
def embed_cover_in_mp3s (env : TagEnv) (cover : String) (fs : FS)
    (tracks : List String) : FS × List (String × Bool) :=
  if env.ffmpegFound then embedGo env cover fs tracks else (fs, [])

/- ------------------------------------------------------------------ -/
/- Assoc-list lemmas                                                   -/
/- ------------------------------------------------------------------ -/

theorem fsGet_set_self (fs : FS) (p : String) (v : Content) :
    fsGet (fsSet fs p v) p = some v := by
  simp [fsGet, fsSet, List.find?]

theorem fsGet_erase_self (fs : FS) (p : String) :
    fsGet (fsErase fs p) p = none := by
  induction fs with
  | nil => rfl
  | cons e rest ih =>
      simp only [fsErase] at ih ⊢
      rw [List.filter_cons]
      by_cases h : e.1 = p
      · rw [if_neg (by simp [h])]
        exact ih
      · rw [if_pos (by simp [h])]
        simp only [fsGet]
        rw [List.find?_cons_of_neg _ (by simp [h])]
        simpa [fsGet] using ih

theorem fsGet_erase_ne (fs : FS) (p q : String) (h : q ≠ p) :
    fsGet (fsErase fs p) q = fsGet fs q := by
  induction fs with
  | nil => rfl
  | cons e rest ih =>
      simp only [fsErase] at ih ⊢
      rw [List.filter_cons]
      by_cases he : e.1 = p
      · rw [if_neg (by simp [he])]
        rw [ih]
        have hne : ¬ e.1 = q := by
          rw [he]; exact fun hc => h hc.symm
        simp only [fsGet]
        rw [List.find?_cons_of_neg _ (by simp [hne])]
      · rw [if_pos (by simp [he])]
        by_cases hq : e.1 = q
        · simp only [fsGet]
          rw [List.find?_cons_of_pos _ (by simp [hq]),
            List.find?_cons_of_pos _ (by simp [hq])]
        · simp only [fsGet]
          rw [List.find?_cons_of_neg _ (by simp [hq]),
            List.find?_cons_of_neg _ (by simp [hq])]
          simpa [fsGet] using ih

theorem fsGet_set_ne (fs : FS) (p q : String) (v : Content) (h : q ≠ p) :
    fsGet (fsSet fs p v) q = fsGet fs q := by
  have hpq : ¬ p = q := fun hc => h hc.symm
  simp only [fsSet, fsGet]
  rw [List.find?_cons_of_neg _ (by simp [hpq])]
  have := fsGet_erase_ne fs p q h
  simpa [fsGet] using this

theorem tmpName_ne_self (f : String) : tmpName f ≠ f := by
  intro h
  have hd : ("_tmp_" ++ f).data = f.data := congrArg String.data h
  rw [String.data_append] at hd
  have hlen := congrArg List.length hd
  rw [List.length_append] at hlen
  have h5 : ("_tmp_".data).length = 5 := rfl
  omega

theorem tmpName_injective (f g : String) (h : tmpName f = tmpName g) :
    f = g := by
  have hd : "_tmp_".data ++ f.data = "_tmp_".data ++ g.data := by
    have h2 : ("_tmp_" ++ f).data = ("_tmp_" ++ g).data :=
      congrArg String.data h
    rwa [String.data_append, String.data_append] at h2
  exact String.ext (List.append_cancel_left hd)

/- ------------------------------------------------------------------ -/
/- `tagOne` behaviour                                                  -/
/- ------------------------------------------------------------------ -/

theorem tagOne_frame (env : TagEnv) (cover : String) (fs : FS) (f p : String)
    (h1 : p ≠ f) (h2 : p ≠ tmpName f) :
    fsGet (tagOne env cover fs f).1 p = fsGet fs p := by
  cases hok : env.ok f with
  | true =>
      simp only [tagOne, hok, if_true]
      rw [fsGet_set_ne _ _ _ _ h1, fsGet_erase_ne _ _ _ h2,
        fsGet_set_ne _ _ _ _ h2]
  | false =>
      cases hl : env.leftTmpOutput f with
      | true =>
          simp [tagOne, hok, hl, fsGet_set_self]
          rw [fsGet_erase_ne _ _ _ h2, fsGet_set_ne _ _ _ _ h2]
      | false =>
          cases hs : (fsGet fs (tmpName f)).isSome with
          | true =>
              simp [tagOne, hok, hl, hs]
              rw [fsGet_erase_ne _ _ _ h2]
          | false =>
              simp [tagOne, hok, hl, hs]

theorem tagOne_tmp (env : TagEnv) (cover : String) (fs : FS) (f : String) :
    fsGet (tagOne env cover fs f).1 (tmpName f) = none := by
  cases hok : env.ok f with
  | true =>
      simp only [tagOne, hok, if_true]
      rw [fsGet_set_ne _ _ _ _ (tmpName_ne_self f), fsGet_erase_self]
  | false =>
      cases hl : env.leftTmpOutput f with
      | true =>
          simp [tagOne, hok, hl, fsGet_set_self, fsGet_erase_self]
      | false =>
          cases hs : (fsGet fs (tmpName f)).isSome with
          | true =>
              simp [tagOne, hok, hl, hs, fsGet_erase_self]
          | false =>
              simp [tagOne, hok, hl, hs]
              cases hv : fsGet fs (tmpName f) with
              | none => rfl
              | some c => rw [hv] at hs; simp at hs

theorem tagOne_self_ok (env : TagEnv) (cover : String) (fs : FS)
    (f : String) (hok : env.ok f = true) :
    fsGet (tagOne env cover fs f).1 f =
      some (Content.tagged ((fsGet fs f).getD .absent)
        ((fsGet fs cover).getD .absent)) := by
  simp only [tagOne, hok, if_true]
  rw [fsGet_set_self]

theorem tagOne_self_fail (env : TagEnv) (cover : String) (fs : FS)
    (f : String) (hok : env.ok f = false) :
    fsGet (tagOne env cover fs f).1 f = fsGet fs f := by
  have h2 : f ≠ tmpName f := fun hc => tmpName_ne_self f hc.symm
  cases hl : env.leftTmpOutput f with
  | true =>
      simp [tagOne, hok, hl, fsGet_set_self]
      rw [fsGet_erase_ne _ _ _ h2, fsGet_set_ne _ _ _ _ h2]
  | false =>
      cases hs : (fsGet fs (tmpName f)).isSome with
      | true =>
          simp [tagOne, hok, hl, hs]
          rw [fsGet_erase_ne _ _ _ h2]
      | false =>
          simp [tagOne, hok, hl, hs]

theorem tagOne_snd (env : TagEnv) (cover : String) (fs : FS) (f : String) :
    (tagOne env cover fs f).2 = env.ok f := by
  cases hok : env.ok f <;> simp [tagOne, hok]

/-- Behaviour of the tagging loop: the report lists every track with its
ffmpeg outcome; paths that are neither a track nor a track's temp name are
untouched; every track's temp file is absent afterwards; successfully
tagged tracks hold the tagged content built from their original bytes and
the cover; failed tracks are byte-identical to their pre-run state. -/
theorem embedGo_spec (env : TagEnv) (cover : String) :
    ∀ (tracks : List String) (fs : FS),
      tracks.Nodup →
      (∀ f ∈ tracks, ∀ g ∈ tracks, tmpName f ≠ g) →
      (∀ f ∈ tracks, cover ≠ f ∧ cover ≠ tmpName f) →
      ((embedGo env cover fs tracks).2 =
        tracks.map (fun f => (f, env.ok f))) ∧
      (∀ p : String, (∀ f ∈ tracks, p ≠ f ∧ p ≠ tmpName f) →
        fsGet (embedGo env cover fs tracks).1 p = fsGet fs p) ∧
      (∀ f ∈ tracks,
        fsGet (embedGo env cover fs tracks).1 (tmpName f) = none ∧
        (env.ok f = true →
          fsGet (embedGo env cover fs tracks).1 f =
            some (Content.tagged ((fsGet fs f).getD .absent)
              ((fsGet fs cover).getD .absent))) ∧
        (env.ok f = false →
          fsGet (embedGo env cover fs tracks).1 f = fsGet fs f)) := by
  intro tracks
  induction tracks with
  | nil =>
      intro fs _ _ _
      refine ⟨rfl, fun p _ => rfl, fun f hf => absurd hf (List.not_mem_nil f)⟩
  | cons f rest ih =>
      intro fs hnd htmp hcov
      have hhead : f ∈ f :: rest := List.mem_cons_self f rest
      have hfnotin : f ∉ rest := (List.nodup_cons.mp hnd).1
      have hndrest : rest.Nodup := (List.nodup_cons.mp hnd).2
      have htmpr : ∀ a ∈ rest, ∀ b ∈ rest, tmpName a ≠ b := fun a ha b hb =>
        htmp a (List.mem_cons_of_mem _ ha) b (List.mem_cons_of_mem _ hb)
      have hcovr : ∀ a ∈ rest, cover ≠ a ∧ cover ≠ tmpName a := fun a ha =>
        hcov a (List.mem_cons_of_mem _ ha)
      obtain ⟨ihs, ihframe, ihtracks⟩ :=
        ih (tagOne env cover fs f).1 hndrest htmpr hcovr
      have hAg : ∀ g ∈ rest,
          fsGet (tagOne env cover fs f).1 g = fsGet fs g := by
        intro g hg
        refine tagOne_frame env cover fs f g ?_ ?_
        · intro hc; exact hfnotin (hc ▸ hg)
        · intro hc
          exact htmp f hhead g (List.mem_cons_of_mem _ hg) hc.symm
      have hAc : fsGet (tagOne env cover fs f).1 cover = fsGet fs cover :=
        tagOne_frame env cover fs f cover (hcov f hhead).1 (hcov f hhead).2
      refine ⟨?_, ?_, ?_⟩
      · show (f, (tagOne env cover fs f).2) ::
            (embedGo env cover (tagOne env cover fs f).1 rest).2 =
          (f :: rest).map (fun f => (f, env.ok f))
        rw [tagOne_snd, ihs, List.map_cons]
      · intro p hp
        have hpf := hp f hhead
        have hpr : ∀ a ∈ rest, p ≠ a ∧ p ≠ tmpName a := fun a ha =>
          hp a (List.mem_cons_of_mem _ ha)
        show fsGet (embedGo env cover (tagOne env cover fs f).1 rest).1 p =
          fsGet fs p
        rw [ihframe p hpr]
        exact tagOne_frame env cover fs f p hpf.1 hpf.2
      · intro g hg
        rcases List.mem_cons.mp hg with hgf | hgr
        · subst hgf
          refine ⟨?_, ?_, ?_⟩
          · have hptmp : ∀ a ∈ rest, tmpName g ≠ a ∧ tmpName g ≠ tmpName a := by
              intro a ha
              refine ⟨htmp g hhead a (List.mem_cons_of_mem _ ha), ?_⟩
              intro hc
              exact hfnotin (by rw [tmpName_injective g a hc]; exact ha)
            show fsGet (embedGo env cover (tagOne env cover fs g).1 rest).1
                (tmpName g) = none
            rw [ihframe (tmpName g) hptmp]
            exact tagOne_tmp env cover fs g
          · intro hok
            have hpg : ∀ a ∈ rest, g ≠ a ∧ g ≠ tmpName a := by
              intro a ha
              refine ⟨fun hc => hfnotin (hc ▸ ha), fun hc => ?_⟩
              exact htmp a (List.mem_cons_of_mem _ ha) g hhead hc.symm
            show fsGet (embedGo env cover (tagOne env cover fs g).1 rest).1
                g = some (Content.tagged ((fsGet fs g).getD .absent)
                  ((fsGet fs cover).getD .absent))
            rw [ihframe g hpg]
            exact tagOne_self_ok env cover fs g hok
          · intro hok
            have hpg : ∀ a ∈ rest, g ≠ a ∧ g ≠ tmpName a := by
              intro a ha
              refine ⟨fun hc => hfnotin (hc ▸ ha), fun hc => ?_⟩
              exact htmp a (List.mem_cons_of_mem _ ha) g hhead hc.symm
            show fsGet (embedGo env cover (tagOne env cover fs g).1 rest).1
                g = fsGet fs g
            rw [ihframe g hpg]
            exact tagOne_self_fail env cover fs g hok
        · obtain ⟨htmpg, hokg, hfailg⟩ := ihtracks g hgr
          refine ⟨htmpg, ?_, ?_⟩
          · intro hok
            have hres := hokg hok
            rw [hAg g hgr, hAc] at hres
            exact hres
          · intro hok
            have hres := hfailg hok
            rw [hAg g hgr] at hres
            exact hres

/- ------------------------------------------------------------------ -/
/- Claim C7 (confirmed)                                                -/
/- ------------------------------------------------------------------ -/

/-- Claim C7: when tagging multiple tracks, a failed ffmpeg invocation for
track `t` leaves `t` byte-identical to its pre-run content and its partial
temp output discarded; the loop performs exactly one invocation per track
(the report has one entry per track, so no retry and no early abort), the
failure is reported as `(t, false)`, and every other track whose invocation
succeeds still ends up tagged. -/
theorem embed_cover_partial_failure (env : TagEnv) (cover : String)
    (fs : FS) (tracks : List String) (t : String)
    (hff : env.ffmpegFound = true)
    (hnd : tracks.Nodup)
    (htmp : ∀ f ∈ tracks, ∀ g ∈ tracks, tmpName f ≠ g)
    (hcov : ∀ f ∈ tracks, cover ≠ f ∧ cover ≠ tmpName f)
    (ht : t ∈ tracks) (hfail : env.ok t = false) :
    fsGet (embed_cover_in_mp3s env cover fs tracks).1 t = fsGet fs t ∧
    fsGet (embed_cover_in_mp3s env cover fs tracks).1 (tmpName t) = none ∧
    (t, false) ∈ (embed_cover_in_mp3s env cover fs tracks).2 ∧
    (embed_cover_in_mp3s env cover fs tracks).2.length = tracks.length ∧
    (∀ f ∈ tracks, env.ok f = true →
      fsGet (embed_cover_in_mp3s env cover fs tracks).1 f =
        some (Content.tagged ((fsGet fs f).getD .absent)
          ((fsGet fs cover).getD .absent))) := by
  have hembed : embed_cover_in_mp3s env cover fs tracks =
      embedGo env cover fs tracks := by
    unfold embed_cover_in_mp3s
    rw [if_pos hff]
  obtain ⟨hs, hframe, htr⟩ := embedGo_spec env cover tracks fs hnd htmp hcov
  obtain ⟨htmpt, hokt, hfailt⟩ := htr t ht
  rw [hembed]
  refine ⟨hfailt hfail, htmpt, ?_, ?_, ?_⟩
  · rw [hs]
    exact List.mem_map.mpr ⟨t, ht, by rw [hfail]⟩
  · rw [hs, List.length_map]
  · intro f hf hok
    exact ((htr f hf).2.1) hok

/-- Concrete environment for the C7 witness: three tracks, the second
one's ffmpeg invocation fails and leaves a partial temp file behind. -/
def tagEnvW : TagEnv :=
  ⟨true, fun s => !(s == "b.mp3"), fun _ => true⟩

/-- Concrete story folder for the C7 witness. -/
def tagFsW : FS :=
  [("a.mp3", Content.raw "A"), ("b.mp3", Content.raw "B"),
   ("c.mp3", Content.raw "C"), ("cover.jpg", Content.raw "J")]

/-- Witness for `embed_cover_partial_failure`: three tracks, the second
fails; tracks 1 and 3 get tagged, track 2 is untouched and its temp file
is gone, and the report has one entry per track including the failure. -/
theorem embed_cover_partial_failure_witness :
    fsGet (embed_cover_in_mp3s tagEnvW "cover.jpg" tagFsW
        ["a.mp3", "b.mp3", "c.mp3"]).1 "b.mp3" = fsGet tagFsW "b.mp3" ∧
    fsGet (embed_cover_in_mp3s tagEnvW "cover.jpg" tagFsW
        ["a.mp3", "b.mp3", "c.mp3"]).1 (tmpName "b.mp3") = none ∧
    ("b.mp3", false) ∈ (embed_cover_in_mp3s tagEnvW "cover.jpg" tagFsW
        ["a.mp3", "b.mp3", "c.mp3"]).2 ∧
    (embed_cover_in_mp3s tagEnvW "cover.jpg" tagFsW
        ["a.mp3", "b.mp3", "c.mp3"]).2.length = 3 ∧
    fsGet (embed_cover_in_mp3s tagEnvW "cover.jpg" tagFsW
        ["a.mp3", "b.mp3", "c.mp3"]).1 "a.mp3" =
      some (Content.tagged ((fsGet tagFsW "a.mp3").getD .absent)
        ((fsGet tagFsW "cover.jpg").getD .absent)) := by
  obtain ⟨h1, h2, h3, h4, h5⟩ :=
    embed_cover_partial_failure tagEnvW "cover.jpg" tagFsW
      ["a.mp3", "b.mp3", "c.mp3"] "b.mp3" (by decide) (by decide)
      (by decide) (by decide) (by decide) (by decide)
  exact ⟨h1, h2, h3, h4, h5 "a.mp3" (by decide) (by decide)⟩

/- ------------------------------------------------------------------ -/
/- Claim C9 (confirmed)                                                -/
/- ------------------------------------------------------------------ -/

/-- Claim C9: `delete_source_art` unlinks a file only when its resolved
path lies strictly inside the resolved base directory (resolved art path =
resolved base ++ "/" ++ something, in particular differing from the base
itself); whenever `_is_within` is false the deletion is skipped and the
file left untouched; and an unlink error is caught and only logged — the
total outcome type has no propagating-exception case. -/
theorem delete_source_art_only_inside (env : FsEnv) (a b : List Char) :
    (delete_source_art env a b = .deleted →
      env.isFile a = true ∧ env.unlinkFails a = false ∧
      ∃ ra rb, env.resolve a = some ra ∧ env.resolve b = some rb ∧
        (∃ rest, ra = rb ++ '/' :: rest) ∧ ra ≠ rb) ∧
    (is_within env a b = false → delete_source_art env a b = .skipped) ∧
    (env.isFile a = true → is_within env a b = true →
      env.unlinkFails a = true →
        delete_source_art env a b = .errorLogged) := by
  refine ⟨?_, ?_, ?_⟩
  · intro h
    unfold delete_source_art at h
    by_cases hc : (env.isFile a && is_within env a b) = true
    · rw [if_pos hc] at h
      have hc2 := hc
      simp only [Bool.and_eq_true] at hc2
      obtain ⟨hfile, hwithin⟩ := hc2
      by_cases hu : env.unlinkFails a = true
      · rw [if_pos hu] at h
        simp at h
      · have hu2 : env.unlinkFails a = false := by
          cases hv : env.unlinkFails a
          · rfl
          · exact absurd hv hu
        refine ⟨hfile, hu2, ?_⟩
        unfold is_within at hwithin
        cases hra : env.resolve a with
        | none =>
            rw [hra] at hwithin
            cases hrb : env.resolve b <;> rw [hrb] at hwithin <;>
              simp at hwithin
        | some ra =>
            cases hrb : env.resolve b with
            | none =>
                rw [hra, hrb] at hwithin
                simp at hwithin
            | some rb =>
                rw [hra, hrb] at hwithin
                have hpre : (rb ++ ['/']) <+: ra :=
                  List.isPrefixOf_iff_prefix.mp hwithin
                obtain ⟨t, htconcat⟩ := hpre
                refine ⟨ra, rb, rfl, rfl, ⟨t, ?_⟩, ?_⟩
                · rw [← htconcat, List.append_assoc]
                  rfl
                · intro hc2
                  have h1 : (rb ++ ['/'] ++ t).length = ra.length :=
                    congrArg List.length htconcat
                  simp [List.length_append] at h1
                  rw [hc2] at h1
                  omega
    · rw [if_neg hc] at h
      simp at h
  · intro h
    unfold delete_source_art
    rw [if_neg]
    simp [h]
  · intro hf hw hu
    unfold delete_source_art
    rw [if_pos (by simp [hf, hw]), if_pos hu]

/-- Concrete filesystem oracle for the C9 witness: the art resolves inside
the base directory and the unlink succeeds. -/
def fsEnvW : FsEnv :=
  ⟨fun p =>
      if p = ['a', '.', 'p', 'n', 'g'] then
        some ['/', 'b', '/', 'a', '.', 'p', 'n', 'g']
      else if p = ['/', 'b'] then some ['/', 'b'] else none,
    fun _ => true, fun _ => false⟩

/-- Witness for `delete_source_art_only_inside`: at the concrete oracle the
art file is deleted and its resolved path decomposes as base ++ "/" ++
rest. -/
theorem delete_source_art_only_inside_witness :
    delete_source_art fsEnvW ['a', '.', 'p', 'n', 'g'] ['/', 'b'] =
      .deleted ∧
    (fsEnvW.isFile ['a', '.', 'p', 'n', 'g'] = true ∧
      fsEnvW.unlinkFails ['a', '.', 'p', 'n', 'g'] = false ∧
      ∃ ra rb, fsEnvW.resolve ['a', '.', 'p', 'n', 'g'] = some ra ∧
        fsEnvW.resolve ['/', 'b'] = some rb ∧
        (∃ rest, ra = rb ++ '/' :: rest) ∧ ra ≠ rb) :=
  ⟨by decide,
   (delete_source_art_only_inside fsEnvW ['a', '.', 'p', 'n', 'g']
      ['/', 'b']).1 (by decide)⟩

/- ------------------------------------------------------------------ -/
/- Section 7: Python string helpers over `List Char`                   -/
/- ------------------------------------------------------------------ -/

/-- The whitespace characters relevant to Python's `str.strip` /
`str.split` / `textwrap` for the script's inputs: space, tab, newline,
vertical tab, form feed, carriage return. -/
def isPyWS (c : Char) : Bool :=
  c = ' ' || c = '\t' || c = '\n' || c = Char.ofNat 11 ||
    c = Char.ofNat 12 || c = '\r'

/-- Python `sep.join(parts)`. -/
def pyJoin (sep : List Char) : List (List Char) → List Char
  | [] => []
  | [x] => x
  | x :: y :: rest => x ++ sep ++ pyJoin sep (y :: rest)

/-- Python `s.lstrip()`. -/
def pyLStrip (l : List Char) : List Char :=
  l.dropWhile (fun c => isPyWS c)

/-- Python `s.rstrip()`. -/
def pyRStrip (l : List Char) : List Char :=
  (l.reverse.dropWhile (fun c => isPyWS c)).reverse

/-- Python `s.strip()`. -/
def pyStrip (l : List Char) : List Char := pyRStrip (pyLStrip l)

/-- Helper for Python `s.split()` (no argument: split on whitespace runs,
dropping empty fields); `acc` holds the current word reversed. -/
def pyWordsAux : List Char → List Char → List (List Char)
  | acc, [] => if acc.isEmpty then [] else [acc.reverse]
  | acc, c :: cs =>
    if isPyWS c then
      if acc.isEmpty then pyWordsAux [] cs
      else acc.reverse :: pyWordsAux [] cs
    else pyWordsAux (c :: acc) cs

/-- Python `s.split()`. -/
def pyWords (l : List Char) : List (List Char) := pyWordsAux [] l

/-- Python `w.capitalize()`: first character uppercased, the rest
lowercased. -/
def pyCapitalize : List Char → List Char
  | [] => []
  | c :: cs => c.toUpper :: cs.map Char.toLower

/-- Python `s.replace(a, b)` for single-character arguments. -/
def pyReplaceChar (a b : Char) (l : List Char) : List Char :=
  l.map (fun c => if c = a then b else c)

/- ------------------------------------------------------------------ -/
/- Section 8: default title (`humanize_safe_theme` lines 94-96,        -/
/-            `main` line 303)                                         -/
/- ------------------------------------------------------------------ -/

/-- `humanize_safe_theme` (lines 94-96):
`base = s.replace("_", " ").replace("-", " ").strip()` then
`" ".join(w.capitalize() for w in base.split())`. -/
def humanize_safe_theme (s : List Char) : List Char :=
  pyJoin [' ']
    ((pyWords (pyStrip (pyReplaceChar '-' ' ' (pyReplaceChar '_' ' ' s)))).map
      pyCapitalize)

/-- Line 303 of `main`: `title = args.title.strip() or
humanize_safe_theme(safe)` — the stripped title argument when non-empty,
else the humanized slug. -/
def effectiveTitle (titleArg safe : List Char) : List Char :=
  if pyStrip titleArg = [] then humanize_safe_theme safe
  else pyStrip titleArg

/-- The humanization *as the claim words it*: underscores and hyphens
replaced by spaces, every (whitespace-separated) word capitalized, words
joined by single spaces; surrounding whitespace plays no role because
`split` drops it.  Used as the independent reference to compare
`humanize_safe_theme` against. -/
def humanizeClaim (s : List Char) : List Char :=
  pyJoin [' ']
    ((pyWords (s.map (fun c => if c = '_' || c = '-' then ' ' else c))).map
      pyCapitalize)

/- ------------------------------------------------------------------ -/
/- `pyWords` / strip lemmas                                            -/
/- ------------------------------------------------------------------ -/

theorem pyWordsAux_all_ws (s : List Char)
    (h : ∀ c ∈ s, isPyWS c = true) :
    ∀ acc, pyWordsAux acc s = if acc.isEmpty then [] else [acc.reverse] := by
  induction s with
  | nil => intro acc; rfl
  | cons c cs ih =>
      intro acc
      have hc : isPyWS c = true := h c (List.mem_cons_self c cs)
      have hcs : ∀ x ∈ cs, isPyWS x = true := fun x hx =>
        h x (List.mem_cons_of_mem _ hx)
      by_cases ha : acc.isEmpty = true
      · simp [pyWordsAux, hc, ha, ih hcs]
      · simp [pyWordsAux, hc, ha, ih hcs]

theorem pyWordsAux_append_ws (s : List Char)
    (h : ∀ c ∈ s, isPyWS c = true) :
    ∀ (l : List Char) (acc : List Char),
      pyWordsAux acc (l ++ s) = pyWordsAux acc l := by
  intro l
  induction l with
  | nil =>
      intro acc
      rw [List.nil_append, pyWordsAux_all_ws s h acc]
      rfl
  | cons c cs ih =>
      intro acc
      by_cases hc : isPyWS c = true
      · simp [pyWordsAux, hc, ih]
      · simp [pyWordsAux, hc, ih]

theorem pyWords_lstrip (l : List Char) :
    pyWords (pyLStrip l) = pyWords l := by
  show pyWordsAux [] (l.dropWhile (fun c => isPyWS c)) = pyWordsAux [] l
  induction l with
  | nil => rfl
  | cons c cs ih =>
      by_cases hc : isPyWS c = true
      · rw [List.dropWhile_cons_of_pos (by simpa using hc), ih]
        simp only [pyWordsAux, hc, if_true]
        rfl
      · rw [List.dropWhile_cons_of_neg (by simpa using hc)]

theorem pyWords_rstrip (l : List Char) :
    pyWords (pyRStrip l) = pyWords l := by
  have hdecomp :
      l = pyRStrip l ++ (l.reverse.takeWhile (fun c => isPyWS c)).reverse := by
    conv_lhs => rw [← List.reverse_reverse l]
    conv_lhs =>
      rw [← List.takeWhile_append_dropWhile
        (p := fun c => isPyWS c) (l := l.reverse)]
    rw [List.reverse_append]
    rfl
  have hws : ∀ c ∈ (l.reverse.takeWhile (fun c => isPyWS c)).reverse,
      isPyWS c = true := by
    intro c hcmem
    rw [List.mem_reverse] at hcmem
    exact List.mem_takeWhile_imp hcmem
  conv_rhs => rw [hdecomp]
  exact (pyWordsAux_append_ws _ hws (pyRStrip l) []).symm

theorem pyWords_strip (l : List Char) :
    pyWords (pyStrip l) = pyWords l := by
  show pyWords (pyRStrip (pyLStrip l)) = pyWords l
  rw [pyWords_rstrip, pyWords_lstrip]

theorem pyReplaceChar_fuse (s : List Char) :
    pyReplaceChar '-' ' ' (pyReplaceChar '_' ' ' s) =
      s.map (fun c => if c = '_' || c = '-' then ' ' else c) := by
  induction s with
  | nil => rfl
  | cons c cs ih =>
      simp only [pyReplaceChar, List.map_cons] at ih ⊢
      rw [ih]
      by_cases h1 : c = '_'
      · subst h1
        simp
      · by_cases h2 : c = '-'
        · subst h2
          simp
        · simp [h1, h2]

/- ------------------------------------------------------------------ -/
/- Claim C10 (confirmed)                                               -/
/- ------------------------------------------------------------------ -/

/-- Claim C10: when the title argument is empty or whitespace-only, the
cover title is the humanized package identifier exactly as the claim
describes it: underscores and hyphens replaced by spaces, surrounding
whitespace trimmed (made irrelevant by the whitespace split), and every
word capitalized, joined by single spaces. -/
theorem default_title_humanized (t s : List Char) (h : pyStrip t = []) :
    effectiveTitle t s = humanizeClaim s := by
  unfold effectiveTitle
  rw [if_pos h]
  unfold humanize_safe_theme humanizeClaim
  rw [pyWords_strip, pyReplaceChar_fuse]

/-- Witness for `default_title_humanized` at a whitespace-only title and
the slug "friendly_dinosaurs". -/
theorem default_title_humanized_witness :
    pyStrip [' ', ' '] = [] ∧
    effectiveTitle [' ', ' '] ("friendly_dinosaurs".toList) =
      humanizeClaim ("friendly_dinosaurs".toList) :=
  ⟨by decide, default_title_humanized [' ', ' '] _ (by decide)⟩

/- ------------------------------------------------------------------ -/
/- Section 9: `textwrap.wrap` (Python stdlib, default options), as     -/
/- called by `wrap_lines` (line 144)                                   -/
/- ------------------------------------------------------------------ -/

/-- Python `str.expandtabs()` (tab size 8): each tab becomes enough
spaces to reach the next multiple of 8; the column resets after a newline
or carriage return. -/
def expandTabsFrom : List Char → Nat → List Char
  | [], _ => []
  | c :: cs, col =>
    if c = '\t' then
      List.replicate (8 - col % 8) ' ' ++
        expandTabsFrom cs (col + (8 - col % 8))
    else if c = '\n' || c = '\r' then c :: expandTabsFrom cs 0
    else c :: expandTabsFrom cs (col + 1)

/-- `TextWrapper._munge_whitespace` with the default options
(`expand_tabs=True`, `replace_whitespace=True`):
`text.expandtabs().translate(each whitespace char -> " ")`. -/
def munge (s : List Char) : List Char :=
  (expandTabsFrom s 0).map (fun c => if isPyWS c then ' ' else c)

/-- `chunk.strip() == ''`: the chunk is whitespace-only (true for the
empty chunk, as in Python). -/
def isWSChunk (ch : List Char) : Bool := ch.all (fun c => isPyWS c)

/-- `TextWrapper._split`, simplified: the munged text is cut into maximal
runs of whitespace / non-whitespace characters.  (The `break_on_hyphens`
refinement — additionally splitting compound words after hyphens — is not
modeled; hyphens are treated as ordinary word characters.  No claim
involves hyphenated input.)  `k` is the kind of the current run, `acc` the
current run reversed. -/
def splitChunksAux (k : Bool) (acc : List Char) : List Char → List (List Char)
  | [] => [acc.reverse]
  | c :: cs =>
    if isPyWS c = k then splitChunksAux k (c :: acc) cs
    else acc.reverse :: splitChunksAux (isPyWS c) [c] cs

/-- The chunk list of a text. -/
def splitChunks : List Char → List (List Char)
  | [] => []
  | c :: cs => splitChunksAux (isPyWS c) [c] cs

/-- `sum(map(len, chunks))`. -/
def totalLen (chs : List (List Char)) : Nat := (chs.map List.length).sum

/-- The greedy inner `while chunks` loop of `_wrap_chunks`: pop chunks
onto the current line while `cur_len + len(chunk) <= width`. -/
def takeLine (width : Nat) : Nat → List (List Char) →
    List (List Char) × List (List Char)
  | _, [] => ([], [])
  | curLen, ch :: chs =>
    if curLen + ch.length ≤ width then
      let p := takeLine width (curLen + ch.length) chs
      (ch :: p.1, p.2)
    else ([], ch :: chs)

/-- One iteration body of `_wrap_chunks` after the leading-whitespace
drop: the greedy take, `_handle_long_word` (with `break_long_words=True`;
the hyphen search of `break_on_hyphens` is not modeled, see
`splitChunksAux`), then the single trailing-whitespace-chunk drop.
Returns (chunks of the current line, remaining chunks). -/
def wrapStep (width : Nat) (chs1 : List (List Char)) :
    List (List Char) × List (List Char) :=
  let p := takeLine width 0 chs1
  let q : List (List Char) × List (List Char) :=
    match p.2 with
    | [] => (p.1, [])
    | long :: rest =>
      if width < long.length then
        let e := if width < 1 then 1 else width - totalLen p.1
        (p.1 ++ [long.take e], long.drop e :: rest)
      else (p.1, long :: rest)
  let cur3 :=
    match q.1.getLast? with
    | some lastCh => if isWSChunk lastCh then q.1.dropLast else q.1
    | none => q.1
  (cur3, q.2)

/-- The outer `while chunks` loop of `_wrap_chunks`.  `started` records
whether a line has been emitted (`lines` non-empty in CPython), which
gates dropping one leading whitespace chunk.  The fuel argument serves
only termination: `textwrap_wrap` passes `totalLen chs + chs.length + 1`,
which strictly exceeds the number of loop iterations, because every
iteration either consumes a whole chunk or bites at least one character
off the oversized head chunk. -/
def wrapChunksFuel (width : Nat) :
    Nat → List (List Char) → Bool → List (List Char)
  | 0, _, _ => []
  | _ + 1, [], _ => []
  | fuel + 1, ch0 :: rest0, started =>
    let chs1 := if started && isWSChunk ch0 then rest0 else ch0 :: rest0
    match chs1 with
    | [] => []
    | c1 :: r1 =>
      let s := wrapStep width (c1 :: r1)
      if s.1.isEmpty then wrapChunksFuel width fuel s.2 started
      else s.1.flatten :: wrapChunksFuel width fuel s.2 true

/-- `textwrap.wrap(text, width=width)` with the default options. -/
def textwrap_wrap (text : List Char) (width : Nat) : List (List Char) :=
  wrapChunksFuel width
    (totalLen (splitChunks (munge text)) +
      (splitChunks (munge text)).length + 1)
    (splitChunks (munge text)) false

/- ------------------------------------------------------------------ -/
/- Section 10: `wrap_lines` (lines 141-150)                            -/
/- ------------------------------------------------------------------ -/

/-- The ellipsis marker appended on truncation.  Line 148 of the source
file holds a three-character literal whose code points are U+201A, U+00C4,
U+00B6 (a double-encoded horizontal ellipsis). -/
def ellipsisLit : List Char :=
  [Char.ofNat 8218, Char.ofNat 196, Char.ofNat 182]

/-- Python `s.rstrip(". ")`: remove trailing dots and spaces. -/
def rstripDotSpace (l : List Char) : List Char :=
  (l.reverse.dropWhile (fun c => c = '.' || c = ' ')).reverse

/-- `wrap_lines(text, width, max_lines)` (lines 141-150).  `none` models
the uncaught exceptions of the source: `ValueError` from `textwrap.wrap`
when `width <= 0` (reachable since the CLI accepts any integer) and
`IndexError` from `keep[-1]` when `max_lines = 0` and content overflows.
For `max_lines = 0` Python's `lines[max_lines-1:]` is `lines[-1:]`, the
last line alone, which the model mirrors. -/
def wrap_lines (text : List Char) (width : Nat) (max_lines : Nat) :
    Option (List (List Char)) :=
  if text = [] then some [] else
  if width = 0 then none else
  let lines := textwrap_wrap text width
  if max_lines < lines.length then
    let keep := lines.take max_lines
    let tailPart :=
      if max_lines = 0 then lines.drop (lines.length - 1)
      else lines.drop (max_lines - 1)
    if 0 < (pyJoin [' '] tailPart).length then
      match keep.getLast? with
      | none => none
      | some lastLine =>
        if 3 < lastLine.length then
          some (keep.dropLast ++ [rstripDotSpace lastLine ++ ellipsisLit])
        else some keep
    else some keep
  else some lines

/- ------------------------------------------------------------------ -/
/- Lemmas about the textwrap model                                     -/
/- ------------------------------------------------------------------ -/

theorem pyJoin_sep_length_pos (x y : List Char) (r : List (List Char)) :
    0 < (pyJoin [' '] (x :: y :: r)).length := by
  have h : pyJoin [' '] (x :: y :: r) =
      x ++ [' '] ++ pyJoin [' '] (y :: r) := rfl
  rw [h]
  simp only [List.length_append, List.length_cons, List.length_nil]
  omega

theorem exists_cons_cons_of_le (l : List (List Char)) (h : 2 ≤ l.length) :
    ∃ a b t, l = a :: b :: t := by
  cases l with
  | nil => simp at h
  | cons a l2 =>
      cases l2 with
      | nil => simp at h
      | cons b t => exact ⟨a, b, t, rfl⟩

theorem expandTabsFrom_eq_self (l : List Char)
    (h : ∀ c ∈ l, ¬ c = '\t') :
    ∀ col, expandTabsFrom l col = l := by
  induction l with
  | nil => intro col; rfl
  | cons c cs ih =>
      intro col
      have hc : ¬ c = '\t' := h c (List.mem_cons_self c cs)
      have hcs : ∀ x ∈ cs, ¬ x = '\t' := fun x hx =>
        h x (List.mem_cons_of_mem _ hx)
      by_cases h1 : c = '\n'
      · simp [expandTabsFrom, hc, h1, ih hcs]
      · by_cases h2 : c = '\r'
        · simp [expandTabsFrom, hc, h1, h2, ih hcs]
        · simp [expandTabsFrom, hc, h1, h2, ih hcs]

theorem list_map_self {α : Type} (l : List α) (f : α → α)
    (h : ∀ c ∈ l, f c = c) : l.map f = l := by
  calc l.map f = l.map id := List.map_congr_left h
  _ = l := List.map_id l

theorem munge_eq_self (l : List Char)
    (h : ∀ c ∈ l, isPyWS c = true → c = ' ') : munge l = l := by
  have hnt : ∀ c ∈ l, ¬ c = '\t' := by
    intro c hcl hc
    subst hc
    have h2 := h '\t' hcl (by decide)
    exact absurd h2 (by decide)
  unfold munge
  rw [expandTabsFrom_eq_self l hnt 0]
  apply list_map_self
  intro c hcl
  by_cases hws : isPyWS c = true
  · rw [if_pos hws]
    exact (h c hcl hws).symm
  · rw [if_neg hws]

theorem splitChunksAux_flatten (l : List Char) :
    ∀ (k : Bool) (acc : List Char),
      (splitChunksAux k acc l).flatten = acc.reverse ++ l := by
  induction l with
  | nil => intro k acc; simp [splitChunksAux]
  | cons c cs ih =>
      intro k acc
      by_cases hc : isPyWS c = k
      · simp [splitChunksAux, hc, ih, List.append_assoc]
      · simp [splitChunksAux, hc, ih, List.append_assoc]

theorem splitChunks_flatten (t : List Char) :
    (splitChunks t).flatten = t := by
  cases t with
  | nil => rfl
  | cons c cs => simpa using splitChunksAux_flatten cs (isPyWS c) [c]

theorem totalLen_eq_flatten_length (chs : List (List Char)) :
    totalLen chs = chs.flatten.length := by
  unfold totalLen
  rw [List.length_flatten]

theorem takeLine_all (width : Nat) :
    ∀ (chs : List (List Char)) (curLen : Nat),
      curLen + totalLen chs ≤ width →
      takeLine width curLen chs = (chs, []) := by
  intro chs
  induction chs with
  | nil => intro curLen h; rfl
  | cons ch rest ih =>
      intro curLen h
      have htot : totalLen (ch :: rest) = ch.length + totalLen rest := by
        simp [totalLen]
      have h1 : curLen + ch.length ≤ width := by omega
      have h2 : (curLen + ch.length) + totalLen rest ≤ width := by omega
      simp [takeLine, h1, ih (curLen + ch.length) h2]

theorem splitChunksAux_ne_nil (l : List Char) :
    ∀ (k : Bool) (acc : List Char), splitChunksAux k acc l ≠ [] := by
  induction l with
  | nil => intro k acc; simp [splitChunksAux]
  | cons c cs ih =>
      intro k acc
      by_cases hc : isPyWS c = k
      · simp only [splitChunksAux, hc, if_true]
        exact ih k (c :: acc)
      · simp [splitChunksAux, hc]

theorem splitChunksAux_last (l : List Char) :
    ∀ (k : Bool) (acc : List Char), acc ≠ [] →
      (∀ c ∈ acc, isPyWS c = k) →
      ∃ ch b, (splitChunksAux k acc l).getLast? = some ch ∧ ch ≠ [] ∧
        ∀ c ∈ ch, isPyWS c = b := by
  induction l with
  | nil =>
      intro k acc hacc hhom
      refine ⟨acc.reverse, k, by simp [splitChunksAux], by simpa using hacc, ?_⟩
      intro c hcm
      rw [List.mem_reverse] at hcm
      exact hhom c hcm
  | cons c cs ih =>
      intro k acc hacc hhom
      by_cases hc : isPyWS c = k
      · have heq : splitChunksAux k acc (c :: cs) =
            splitChunksAux k (c :: acc) cs := by
          simp [splitChunksAux, hc]
        rw [heq]
        apply ih k (c :: acc) (by simp)
        intro x hx
        rcases List.mem_cons.mp hx with h1 | h2
        · rw [h1]; exact hc
        · exact hhom x h2
      · have heq : splitChunksAux k acc (c :: cs) =
            acc.reverse :: splitChunksAux (isPyWS c) [c] cs := by
          simp [splitChunksAux, hc]
        rw [heq]
        obtain ⟨ch, b, h1, h2, h3⟩ := ih (isPyWS c) [c] (by simp) (by simp)
        refine ⟨ch, b, ?_, h2, h3⟩
        cases hsp : splitChunksAux (isPyWS c) [c] cs with
        | nil => exact absurd hsp (splitChunksAux_ne_nil cs (isPyWS c) [c])
        | cons t0 ts =>
            rw [hsp] at h1
            rw [List.getLast?_cons_cons]
            exact h1

theorem splitChunks_last_not_ws (t : List Char) (lc : Char)
    (hlast : t.getLast? = some lc) (hnws : isPyWS lc = false) :
    ∃ ch, (splitChunks t).getLast? = some ch ∧ ch ≠ [] ∧
      isWSChunk ch = false := by
  cases t with
  | nil => simp at hlast
  | cons c cs =>
      obtain ⟨ch, b, h1, h2, h3⟩ :=
        splitChunksAux_last cs (isPyWS c) [c] (by simp) (by simp)
      have h1s : (splitChunks (c :: cs)).getLast? = some ch := h1
      refine ⟨ch, h1s, h2, ?_⟩
      obtain ⟨init, hinit⟩ := List.getLast?_eq_some_iff.mp h1s
      have heq2 : init.flatten ++ ch = c :: cs := by
        have hflat := splitChunks_flatten (c :: cs)
        rw [hinit] at hflat
        simpa [List.flatten_append] using hflat
      have hgl : (init.flatten ++ ch).getLast? = ch.getLast? := by
        rw [List.getLast?_append]
        cases hch : ch.getLast? with
        | none => exact absurd (List.getLast?_eq_none_iff.mp hch) h2
        | some y => simp
      rw [heq2, hlast] at hgl
      have hmem : lc ∈ ch := List.mem_of_getLast?_eq_some hgl.symm
      show ch.all (fun c => isPyWS c) = false
      refine List.all_eq_false.mpr ⟨lc, hmem, ?_⟩
      simp [hnws]

theorem wrapStep_all_fit (width : Nat) (chs : List (List Char))
    (hfit : totalLen chs ≤ width) (lch : List Char)
    (hlast : chs.getLast? = some lch) (hws : isWSChunk lch = false) :
    wrapStep width chs = (chs, []) := by
  unfold wrapStep
  rw [takeLine_all width chs 0 (by omega)]
  simp [hlast, hws]

theorem wrapChunksFuel_nil (width fuel : Nat) (b : Bool) :
    wrapChunksFuel width fuel [] b = [] := by
  cases fuel <;> rfl

theorem wrapChunksFuel_single (width : Nat) (c1 : List Char)
    (r1 : List (List Char)) (fuel : Nat)
    (hfit : totalLen (c1 :: r1) ≤ width) (lch : List Char)
    (hlast : (c1 :: r1).getLast? = some lch)
    (hws : isWSChunk lch = false) :
    wrapChunksFuel width (fuel + 1) (c1 :: r1) false =
      [(c1 :: r1).flatten] := by
  have hstep := wrapStep_all_fit width (c1 :: r1) hfit lch hlast hws
  simp [wrapChunksFuel, hstep, wrapChunksFuel_nil]

/- ------------------------------------------------------------------ -/
/- Claim C2 (confirmed)                                                -/
/- ------------------------------------------------------------------ -/

/-- Claim C2: whenever the greedy wrap produces more lines than
`max_lines` (with a valid width ≥ 1 and max_lines ≥ 1 — width ≤ 0 raises
in textwrap and max_lines = 0 raises IndexError), `wrap_lines` returns
exactly the first `max_lines` wrapped lines with only the last retained
line modified, and that last line gets its trailing dots/spaces replaced
by the ellipsis marker if and only if it has more than 3 characters. -/
theorem wrap_lines_truncation (text : List Char) (width maxL : Nat)
    (hw : 1 ≤ width) (hm : 1 ≤ maxL)
    (hov : maxL < (textwrap_wrap text width).length) :
    ∃ lastLine,
      ((textwrap_wrap text width).take maxL).getLast? = some lastLine ∧
      wrap_lines text width maxL =
        some (((textwrap_wrap text width).take maxL).dropLast ++
          [if 3 < lastLine.length then
              rstripDotSpace lastLine ++ ellipsisLit
            else lastLine]) ∧
      ((textwrap_wrap text width).take maxL).dropLast ++ [lastLine] =
        (textwrap_wrap text width).take maxL ∧
      (((textwrap_wrap text width).take maxL).dropLast ++
          [if 3 < lastLine.length then
              rstripDotSpace lastLine ++ ellipsisLit
            else lastLine]).length = maxL := by
  have htext : text ≠ [] := by
    intro hc
    subst hc
    have h0 : textwrap_wrap [] width = [] := rfl
    rw [h0] at hov
    simp at hov
  have hwne : ¬ width = 0 := by omega
  have hlen_take : ((textwrap_wrap text width).take maxL).length = maxL := by
    rw [List.length_take]
    omega
  have hkeepne : (textwrap_wrap text width).take maxL ≠ [] := by
    intro hc
    rw [hc] at hlen_take
    simp at hlen_take
    omega
  obtain ⟨lastLine, hlast⟩ : ∃ x,
      ((textwrap_wrap text width).take maxL).getLast? = some x := by
    cases hgl : ((textwrap_wrap text width).take maxL).getLast? with
    | none => exact absurd (List.getLast?_eq_none_iff.mp hgl) hkeepne
    | some x => exact ⟨x, rfl⟩
  have hkeep : ((textwrap_wrap text width).take maxL).dropLast ++
      [lastLine] = (textwrap_wrap text width).take maxL :=
    List.dropLast_append_getLast? lastLine hlast
  have hmne : ¬ maxL = 0 := by omega
  have htail2 : 2 ≤ ((textwrap_wrap text width).drop (maxL - 1)).length := by
    rw [List.length_drop]
    omega
  obtain ⟨a, b, t, habt⟩ := exists_cons_cons_of_le _ htail2
  have hjoin : 0 < (pyJoin [' ']
      ((textwrap_wrap text width).drop (maxL - 1))).length := by
    rw [habt]
    exact pyJoin_sep_length_pos a b t
  refine ⟨lastLine, hlast, ?_, hkeep, ?_⟩
  · by_cases h3 : 3 < lastLine.length
    · simp [wrap_lines, htext, hwne, hov, hmne, hjoin, hlast, h3]
    · simp [wrap_lines, htext, hwne, hov, hmne, hjoin, hlast, h3, hkeep]
  · rw [List.length_append, List.length_dropLast, hlen_take]
    simp
    omega

/-- Witness for `wrap_lines_truncation`: the 14-character text
"aaaa bbbb cccc" wrapped at width 4 gives three lines; with max_lines 2
the result is the first two lines with the second turned into
"bbbb" ++ ellipsis. -/
theorem wrap_lines_truncation_witness :
    (1 ≤ 4 ∧ 1 ≤ 2 ∧ 2 < (textwrap_wrap "aaaa bbbb cccc".toList 4).length) ∧
    ∃ lastLine,
      ((textwrap_wrap "aaaa bbbb cccc".toList 4).take 2).getLast? =
        some lastLine ∧
      wrap_lines "aaaa bbbb cccc".toList 4 2 =
        some (((textwrap_wrap "aaaa bbbb cccc".toList 4).take 2).dropLast ++
          [if 3 < lastLine.length then
              rstripDotSpace lastLine ++ ellipsisLit
            else lastLine]) ∧
      ((textwrap_wrap "aaaa bbbb cccc".toList 4).take 2).dropLast ++
          [lastLine] =
        (textwrap_wrap "aaaa bbbb cccc".toList 4).take 2 ∧
      (((textwrap_wrap "aaaa bbbb cccc".toList 4).take 2).dropLast ++
          [if 3 < lastLine.length then
              rstripDotSpace lastLine ++ ellipsisLit
            else lastLine]).length = 2 :=
  ⟨⟨by decide, by decide, by decide⟩,
   wrap_lines_truncation "aaaa bbbb cccc".toList 4 2 (by decide) (by decide)
     (by decide)⟩

/- ------------------------------------------------------------------ -/
/- Claim C3 (corrected)                                                -/
/- ------------------------------------------------------------------ -/

/-- Counterexample for claim C3.  The empty text is shorter than the wrap
width but yields the empty sequence, not a single-element one; and the
text " hi" (shorter than the width) yields [" hi"] with its leading space
preserved, not the trimmed ["hi"] the claim requires. -/
theorem wrap_lines_short_claim_cex :
    wrap_lines [] 22 2 = some [] ∧
    wrap_lines [' ', 'h', 'i'] 22 2 = some [[' ', 'h', 'i']] ∧
    wrap_lines [' ', 'h', 'i'] 22 2 ≠ some [pyStrip [' ', 'h', 'i']] := by
  refine ⟨by decide, by decide, by decide⟩

/-- Claim C3, amended: for every nonempty input text shorter than the wrap
width whose whitespace characters are all plain spaces and whose last
character is not whitespace (no trailing whitespace), `wrap` returns the
single-element sequence [text]; this coincides with the trimmed input
exactly when the text also has no leading spaces.  Empty or
whitespace-only input yields the empty sequence, leading whitespace is
preserved, and tabs/newlines are first munged to spaces, so for those
inputs the result can differ from the trimmed input. -/
theorem wrap_lines_short_spaces (text : List Char) (width maxL : Nat)
    (lc : Char)
    (hne : text ≠ [])
    (hsp : ∀ c ∈ text, isPyWS c = true → c = ' ')
    (hlast : text.getLast? = some lc)
    (hlcws : isPyWS lc = false)
    (hlen : text.length < width)
    (hm : 1 ≤ maxL) :
    wrap_lines text width maxL = some [text] := by
  obtain ⟨c0, cs0, rfl⟩ : ∃ c0 cs0, text = c0 :: cs0 := by
    cases text with
    | nil => exact absurd rfl hne
    | cons c0 cs0 => exact ⟨c0, cs0, rfl⟩
  have hmunge : munge (c0 :: cs0) = c0 :: cs0 := munge_eq_self _ hsp
  have hflat := splitChunks_flatten (c0 :: cs0)
  have htot : totalLen (splitChunks (c0 :: cs0)) = (c0 :: cs0).length := by
    rw [totalLen_eq_flatten_length, hflat]
  obtain ⟨lch, hchlast, hchne, hchws⟩ :=
    splitChunks_last_not_ws (c0 :: cs0) lc hlast hlcws
  obtain ⟨ch1, chr, hchs⟩ : ∃ ch1 chr,
      splitChunks (c0 :: cs0) = ch1 :: chr := by
    cases hx : splitChunks (c0 :: cs0) with
    | nil =>
        exact absurd hx (splitChunksAux_ne_nil cs0 (isPyWS c0) [c0])
    | cons ch1 chr => exact ⟨ch1, chr, rfl⟩
  have hwrap : textwrap_wrap (c0 :: cs0) width = [c0 :: cs0] := by
    unfold textwrap_wrap
    rw [hmunge, hchs]
    rw [wrapChunksFuel_single width ch1 chr
      (totalLen (ch1 :: chr) + (ch1 :: chr).length) ?_ lch ?_ hchws]
    · rw [← hchs, hflat]
    · rw [← hchs, htot]
      omega
    · rw [← hchs]
      exact hchlast
  have h1len : 1 ≤ (c0 :: cs0).length := by simp
  have hw0 : ¬ width = 0 := by omega
  have hm0 : ¬ maxL = 0 := by omega
  simp [wrap_lines, hwrap, hw0, hm0]

/-- Witness for `wrap_lines_short_spaces` at the text "hi", width 22,
max_lines 2. -/
theorem wrap_lines_short_spaces_witness :
    wrap_lines ['h', 'i'] 22 2 = some [['h', 'i']] :=
  wrap_lines_short_spaces ['h', 'i'] 22 2 'i' (by decide) (by decide)
    (by decide) (by decide) (by decide) (by decide)
